import Mathlib

/-!
# Verification of the repair-pdf text-replacement engine specification

Shallow embedding of `backend/app/pdf_ops.py`.  Python strings are `String`
(manipulated through their `List Char` data so that everything reduces in the
kernel; character classification is ASCII, which covers all inputs the code
handles specially), floats are modelled as `ℚ` (the arithmetic in scope is
exact decimal arithmetic), fallible operations return `Option`/`Except`, and
filesystem / font-library effects are passed in explicitly as total functions
(an exception raised by the library is modelled as `none`).
-/

namespace PdfOps

/-! ## String primitives (structural models of the Python operations used) -/

/-- Whether `p` is a prefix of `l` (Boolean, structural). -/
def isPrefixB : List Char → List Char → Bool
  | [], _ => true
  | _ :: _, [] => false
  | a :: p, b :: l => a == b && isPrefixB p l

/-- Whether `pat` occurs as a contiguous sublist of `l` (Python's `pat in s`). -/
def isSubstrB (pat : List Char) : List Char → Bool
  | [] => pat.isEmpty
  | c :: rest => isPrefixB pat (c :: rest) || isSubstrB pat rest

/-- Python's substring test `pat in s`. -/
def strContains (s pat : String) : Bool := isSubstrB pat.data s.data

/-- Python's `str.strip()` on the character list (both ends, whitespace). -/
def pyStripL (cs : List Char) : List Char :=
  ((cs.dropWhile Char.isWhitespace).reverse.dropWhile Char.isWhitespace).reverse

/-- Python's `str.strip()`. -/
def pyStrip (s : String) : String := ⟨pyStripL s.data⟩

/-- Python's `str.lower()` (ASCII). -/
def pyLower (s : String) : String := ⟨s.data.map Char.toLower⟩

/-- Python's `str.upper()` (ASCII). -/
def pyUpper (s : String) : String := ⟨s.data.map Char.toUpper⟩

/-- Split a character list at every occurrence of the single character `sep`
(Python's `s.split(sep)` for a one-character separator). -/
def splitOnChar (sep : Char) : List Char → List Char → List (List Char)
  | [], cur => [cur.reverse]
  | c :: cs, cur =>
    if c == sep then cur.reverse :: splitOnChar sep cs []
    else splitOnChar sep cs (c :: cur)

/-- Python's `s.split(sep)` for a one-character separator. -/
def strSplitOnChar (sep : Char) (s : String) : List String :=
  (splitOnChar sep s.data []).map fun cs => ⟨cs⟩

/-- Everything after the first occurrence of `sep` (Python `s.split(sep, 1)[1]`,
meaningful only when `sep` occurs). -/
def afterFirstChar (sep : Char) : List Char → List Char
  | [] => []
  | c :: cs => if c == sep then cs else afterFirstChar sep cs

/-- Helper for `pyTitle`: walks the characters carrying whether the previous
character was alphabetic. -/
def pyTitleAux : List Char → Bool → List Char
  | [], _ => []
  | c :: cs, prevAlpha =>
    (if c.isAlpha then (if prevAlpha then c.toLower else c.toUpper) else c)
      :: pyTitleAux cs c.isAlpha

/-- Python's `str.title()`: the first letter of every maximal alphabetic run
is uppercased, the following letters of the run are lowercased. -/
def pyTitle (s : String) : String := ⟨pyTitleAux s.data false⟩

/-! ## `_match_replacement_case` (claim C3) -/

/-- Model of the `_match_replacement_case` helper at pdf_ops.py:502-509:
a word is title-cased when it has no letters, or its first letter is
uppercase and every character after that letter's position is either
non-alphabetic or lowercase. -/
def isTitleWord (w : String) : Bool :=
  let cs := w.data
  if (cs.filter Char.isAlpha).isEmpty then true
  else
    match cs.find? Char.isAlpha with
    | none => true
    | some first =>
      first.isUpper &&
        ((cs.drop (cs.indexOf first + 1)).all fun ch => !ch.isAlpha || ch.isLower)

/-- Split a character list at every whitespace character. -/
def splitWs (cs : List Char) : List (List Char) :=
  cs.foldr (fun c acc =>
    if c.isWhitespace then [] :: acc
    else match acc with
      | [] => [[c]]
      | w :: ws => (c :: w) :: ws) [[]]

/-- The whitespace-separated words of `o` (`re.split(r"\s+", o)` with empty
pieces dropped, pdf_ops.py:500): splitting at every whitespace character and
dropping empties is the same as splitting at whitespace runs. -/
def wsWords (o : String) : List String :=
  ((splitWs o.data).map fun cs => (⟨cs⟩ : String)).filter fun w => !w.data.isEmpty

/-- Model of `_match_replacement_case` (pdf_ops.py:474-514): normalise the casing of
`replacement` to mirror `original`. -/
def matchReplacementCase (original replacement : String) : String :=
  if replacement.data.isEmpty then replacement
  else
    let o := pyStrip original
    if o.data.isEmpty then replacement
    else
      let letters := o.data.filter Char.isAlpha
      if letters.isEmpty then replacement
      else if letters.all Char.isUpper then pyUpper replacement
      else if letters.all Char.isLower then pyLower replacement
      else
        let words := wsWords o
        if !words.isEmpty && words.all isTitleWord then pyTitle replacement
        else replacement

/-! ## Geometry: `fitz.Rect` over exact rationals -/

/-- A PyMuPDF rectangle `(x0, y0, x1, y1)`. -/
structure Rect where
  x0 : ℚ
  y0 : ℚ
  x1 : ℚ
  y1 : ℚ
deriving DecidableEq, Repr

/-- Model of `Rect.height`. -/
def rectHeight (r : Rect) : ℚ := r.y1 - r.y0

/-- Model of `Rect.width`. -/
def rectWidth (r : Rect) : ℚ := r.x1 - r.x0

/-- PyMuPDF geometry truthiness: a `Rect` is falsy exactly when all of its
components are zero (`bool(rect)` in `[fitz.Rect(r) for r in rects if r]`). -/
def rectIsZero (r : Rect) : Bool :=
  r.x0 == 0 && r.y0 == 0 && r.x1 == 0 && r.y1 == 0

/-- Model of `Rect.intersects`: the common rectangle
`(max x0, max y0, min x1, min y1)` is non-empty (PyMuPDF: a rect is empty
when `x0 >= x1` or `y0 >= y1`). -/
def rectIntersects (p q : Rect) : Bool :=
  decide (max p.x0 q.x0 < min p.x1 q.x1) && decide (max p.y0 q.y0 < min p.y1 q.y1)

/-- Whether `outer` contains `inner` componentwise. -/
def rectContains (outer inner : Rect) : Prop :=
  outer.x0 ≤ inner.x0 ∧ outer.y0 ≤ inner.y0 ∧ inner.x1 ≤ outer.x1 ∧ inner.y1 ≤ outer.y1

instance : DecidablePred fun p : Rect × Rect => rectContains p.1 p.2 := fun _ => by
  unfold rectContains; infer_instance

/-! ## `_should_use_distributed_insertion` (claim C5) -/

/-- Model of `_should_use_distributed_insertion` (pdf_ops.py:1484-1535): heuristic
deciding whether to emulate letter tracking by distributing characters. -/
def shouldUseDistributedInsertion (rect : Rect) (originalText replacementText : String)
    (measuredReplacement measuredOriginal fontsize : ℚ) : Bool :=
  if fontsize < 12 then false
  else if replacementText.data.isEmpty || replacementText.data.length ≤ 2 then false
  else if measuredReplacement ≤ 0 then false
  else
    let rectW := max 1 (rectWidth rect - 1)
    if rectW / measuredReplacement < 1.20 then false
    else
      let orig := pyStrip originalText
      let repl := pyStrip replacementText
      if orig.data.isEmpty then false
      else if (orig.data.any Char.isWhitespace) != (repl.data.any Char.isWhitespace) then false
      else if measuredOriginal ≤ 0 then false
      else if rectW / measuredOriginal < 1.10 then false
      else
        let lo := max 1 orig.data.length
        let ratio := (repl.data.length : ℚ) / (lo : ℚ)
        if ratio < 0.65 || ratio > 1.35 then false
        else true

/-- The tracking condition exactly as claim C5 states it: the raw rect width
minus 1 (no clamp at 1), and whitespace / length-ratio tests on the raw
(untrimmed) strings. -/
def claimTrackingCond (rect : Rect) (originalText replacementText : String)
    (measuredReplacement measuredOriginal fontsize : ℚ) : Prop :=
  12 ≤ fontsize ∧
  2 < replacementText.data.length ∧
  (rectWidth rect - 1) / measuredReplacement ≥ 1.20 ∧
  (rectWidth rect - 1) / measuredOriginal ≥ 1.10 ∧
  (originalText.data.any Char.isWhitespace) = (replacementText.data.any Char.isWhitespace) ∧
  0.65 ≤ ((replacementText.data.length : ℚ) / (originalText.data.length : ℚ)) ∧
  ((replacementText.data.length : ℚ) / (originalText.data.length : ℚ)) ≤ 1.35

/-- The tracking condition the code actually implements, as one conjunction:
rect width minus 1 clamped below at 1, whitespace agreement and length ratio
computed on the trimmed strings, and the trimmed original nonempty.  (The
measured widths need no explicit positivity: if a measured width is `≤ 0`
its fill-ratio condition already fails, since the clamped rect width is
positive and division by zero is zero in `ℚ`.) -/
def trackingCond (rect : Rect) (originalText replacementText : String)
    (measuredReplacement measuredOriginal fontsize : ℚ) : Prop :=
  12 ≤ fontsize ∧
  2 < replacementText.data.length ∧
  max 1 (rectWidth rect - 1) / measuredReplacement ≥ 1.20 ∧
  max 1 (rectWidth rect - 1) / measuredOriginal ≥ 1.10 ∧
  (pyStrip originalText).data ≠ [] ∧
  ((pyStrip originalText).data.any Char.isWhitespace)
    = ((pyStrip replacementText).data.any Char.isWhitespace) ∧
  0.65 ≤ (((pyStrip replacementText).data.length : ℚ)
      / ((max 1 (pyStrip originalText).data.length : ℕ) : ℚ)) ∧
  (((pyStrip replacementText).data.length : ℚ)
      / ((max 1 (pyStrip originalText).data.length : ℕ) : ℚ)) ≤ 1.35

instance (rect : Rect) (ot rt : String) (mr mo fs : ℚ) :
    Decidable (trackingCond rect ot rt mr mo fs) := by
  unfold trackingCond; infer_instance

instance (rect : Rect) (ot rt : String) (mr mo fs : ℚ) :
    Decidable (claimTrackingCond rect ot rt mr mo fs) := by
  unfold claimTrackingCond; infer_instance

/-! ## `_baseline_point` (claim C7) -/

/-- A PyMuPDF point. -/
structure PointQ where
  x : ℚ
  y : ℚ
deriving DecidableEq, Repr

/-- Model of `_baseline_point` (pdf_ops.py:418-432).  Here `descender?` is the result of
constructing the font and reading its `descender` attribute (with the
`getattr` default `-0.2`); `none` models the exception path. -/
def baselinePoint (rect : Rect) (fontsize : ℚ) (descender? : Option ℚ) : PointQ :=
  match descender? with
  | some desc =>
    let y := rect.y1 + desc * fontsize
    let y := if y < rect.y0 then rect.y0 + fontsize else y
    let y := if y > rect.y1 then rect.y1 - 1 else y
    ⟨rect.x0, y⟩
  | none => ⟨rect.x0, rect.y1 - max 1 (fontsize * 0.18)⟩

/-! ## `_merge_close_rects` (claims C4, C9) -/

/-- Sort key order `(y0, x0)` used by `cleaned.sort(...)` (pdf_ops.py:1219). -/
def rectLE (p q : Rect) : Prop :=
  p.y0 < q.y0 ∨ (p.y0 = q.y0 ∧ p.x0 ≤ q.x0)

instance : DecidableRel rectLE := fun _ _ => by unfold rectLE; infer_instance

instance : IsTotal Rect rectLE :=
  ⟨fun p q => by unfold rectLE; rcases lt_trichotomy p.y0 q.y0 with h | h | h
                 · exact Or.inl (Or.inl h)
                 · rcases le_total p.x0 q.x0 with hx | hx
                   · exact Or.inl (Or.inr ⟨h, hx⟩)
                   · exact Or.inr (Or.inr ⟨h.symm, hx⟩)
                 · exact Or.inr (Or.inl h)⟩

instance : IsTrans Rect rectLE :=
  ⟨fun a b c hab hbc => by
    unfold rectLE at *
    rcases hab with h1 | ⟨h1, h1x⟩ <;> rcases hbc with h2 | ⟨h2, h2x⟩
    · exact Or.inl (h1.trans h2)
    · exact Or.inl (h2 ▸ h1)
    · exact Or.inl (h1 ▸ h2)
    · exact Or.inr ⟨h1.trans h2, h1x.trans h2x⟩⟩

/-- The merge test applied to the current accumulated rect `last` and the
next sorted rect `r` (pdf_ops.py:1227-1243). -/
def shouldMerge (last r : Rect) : Bool :=
  let vOverlap := max 0 (min last.y1 r.y1 - max last.y0 r.y0)
  let minH := max 1 (min (rectHeight last) (rectHeight r))
  let sameLine :=
    decide (vOverlap / minH ≥ 0.3) ||
    decide (|(last.y0 + last.y1) / 2 - (r.y0 + r.y1) / 2| < minH * 0.8)
  rectIntersects last r || sameLine

/-- Bounding-box union, as built at pdf_ops.py:1244-1249. -/
def unionRect (a b : Rect) : Rect :=
  ⟨min a.x0 b.x0, min a.y0 b.y0, max a.x1 b.x1, max a.y1 b.y1⟩

/-- The merging pass (pdf_ops.py:1221-1251); the accumulator holds the
`merged` list reversed, so its head is Python's `merged[-1]`. -/
def mergeLoop : List Rect → List Rect → List Rect
  | acc, [] => acc.reverse
  | [], r :: rest => mergeLoop [r] rest
  | last :: accTail, r :: rest =>
    if shouldMerge last r then mergeLoop (unionRect last r :: accTail) rest
    else mergeLoop (r :: last :: accTail) rest

/-- The padding applied to each merged rect (pdf_ops.py:1255-1265). -/
def padRect (r : Rect) : Rect :=
  let h := rectHeight r
  let padX := max 2 (h * 0.15)
  let padY := max 1 (h * 0.08)
  ⟨r.x0 - padX, r.y0 - padY, r.x1 + padX, r.y1 + padY⟩

/-- Model of `_merge_close_rects` (pdf_ops.py:1207-1266). -/
def mergeCloseRects (rects : List Rect) : List Rect :=
  if rects.isEmpty then []
  else
    let cleaned := rects.filter fun r => !rectIsZero r
    let sorted := List.insertionSort rectLE cleaned
    (mergeLoop [] sorted).map padRect

/-- Claim C4's "same visual line" condition with the code's clamp
`max 1 (smaller height)` (the amended form; the claim as stated omits the
clamp). -/
def sameLineCond (a b : Rect) : Prop :=
  rectIntersects a b = true ∨
  max 0 (min a.y1 b.y1 - max a.y0 b.y0) / max 1 (min (rectHeight a) (rectHeight b)) ≥ 0.3 ∨
  |(a.y0 + a.y1) / 2 - (b.y0 + b.y1) / 2| < 0.8 * max 1 (min (rectHeight a) (rectHeight b))

/-- Claim C4's "different lines" condition with the clamped smaller height:
no vertical overlap, and centers strictly more than `0.8 × max 1 (min h)`
apart. -/
def separateCond (a b : Rect) : Prop :=
  min a.y1 b.y1 - max a.y0 b.y0 ≤ 0 ∧
  |(a.y0 + a.y1) / 2 - (b.y0 + b.y1) / 2| > 0.8 * max 1 (min (rectHeight a) (rectHeight b))

/-! ## Page-collection parsing (`parse_reorder`, `parse_page_ranges`,
`reorder_pages`, `remove_pages`: claims C2, C8).  A document is modelled as
the list of its pages. -/

/-- Tail of Python's underscore-digit grammar: digits, with single
underscores allowed only between digits. -/
def udTail : List Char → Bool
  | [] => true
  | '_' :: cs =>
    match cs with
    | [] => false
    | c :: cs2 => c.isDigit && udTail cs2
  | c :: cs => c.isDigit && udTail cs

/-- A nonempty digit string with single underscores between digits. -/
def udOk : List Char → Bool
  | [] => false
  | c :: cs => c.isDigit && udTail cs

/-- Numeric value of a digit string, ignoring underscores. -/
def digitsVal (cs : List Char) : Nat :=
  (cs.filter fun c => c != '_').foldl (fun a c => a * 10 + (c.toNat - 48)) 0

/-- Python's `int(s)` for a decimal string: strip whitespace, optional sign,
then digits with single underscores between digits; `none` models
`ValueError`. -/
def pyInt (s : String) : Option Int :=
  match pyStripL s.data with
  | '+' :: rest => if udOk rest then some (digitsVal rest : Int) else none
  | '-' :: rest => if udOk rest then some (-(digitsVal rest : Int)) else none
  | cs => if udOk cs then some (digitsVal cs : Int) else none

/-- Model of `_parse_positive_int` (pdf_ops.py:1081-1088). -/
def parsePositiveInt (value : String) (name : String) : Except String Int :=
  match pyInt value with
  | none => .error (name ++ " must be an integer")
  | some n => if n ≤ 0 then .error (name ++ " must be >= 1") else .ok n

/-- The comma-separated tokens of a page-order / page-ranges string:
strip the whole string, split on `','`, strip each part, drop empties. -/
def commaTokens (s : String) : List String :=
  ((strSplitOnChar ',' (pyStrip s)).map pyStrip).filter fun p => !p.data.isEmpty

/-- The validation loop of `parse_reorder` (pdf_ops.py:1139-1149); `acc`
holds the accepted 0-based indices reversed and doubles as the `seen` set. -/
def parseReorderLoop (pageCount : Nat) : List String → List Nat → Except String (List Nat)
  | [], acc => .ok acc.reverse
  | part :: rest, acc =>
    match parsePositiveInt part "order item" with
    | .error e => .error e
    | .ok oneBased =>
      let idx : Int := oneBased - 1
      if idx < 0 ∨ (pageCount : Int) ≤ idx then
        .error s!"order contains out-of-bounds page {oneBased} (1..{pageCount})"
      else if idx.toNat ∈ acc then .error "order contains duplicates"
      else parseReorderLoop pageCount rest (idx.toNat :: acc)

/-- Model of `parse_reorder` (pdf_ops.py:1125-1151). -/
def parseReorder (order : String) (pageCount : Nat) : Except String (List Nat) :=
  if pageCount = 0 then .error "PDF has no pages"
  else if (pyStrip order).data.isEmpty then .error "order is required"
  else
    let parts := commaTokens order
    if parts.length ≠ pageCount then .error s!"order must specify exactly {pageCount} pages"
    else parseReorderLoop pageCount parts []

/-- Model of `reorder_pages` (pdf_ops.py:1169-1181): copy the source pages into the
output in the parsed order. -/
def reorderPages (pages : List α) (order : String) : Except String (List α) :=
  match parseReorder order pages.length with
  | .error e => .error e
  | .ok po => .ok (po.filterMap fun i => pages[i]?)

/-- Structural helper for `addRangeLoop`; the first argument is the number
of remaining loop iterations. -/
def addRangeAux (pageCount : Nat) : Nat → Nat → Finset ℕ → Except String (Finset ℕ)
  | 0, _, acc => .ok acc
  | fuel + 1, oneBased, acc =>
    let idx := oneBased - 1
    if pageCount ≤ idx then .error s!"page {oneBased} is out of bounds (1..{pageCount})"
    else addRangeAux pageCount fuel (oneBased + 1) (insert idx acc)

/-- The `for one_based in range(start, end + 1)` loop of `parse_page_ranges`
(pdf_ops.py:1110-1114), iterating `endB + 1 - oneBased` times; callers
guarantee `1 ≤ oneBased` (it comes from `_parse_positive_int`), so the
Python `idx < 0` test is vacuous. -/
def addRangeLoop (pageCount endB oneBased : Nat) (acc : Finset ℕ) :
    Except String (Finset ℕ) :=
  addRangeAux pageCount (endB + 1 - oneBased) oneBased acc

/-- Everything before the first occurrence of `sep` (Python
`s.split(sep, 1)[0]`). -/
def beforeFirstChar (sep : Char) : List Char → List Char
  | [] => []
  | c :: cs => if c == sep then [] else c :: beforeFirstChar sep cs

/-- One comma-part of `parse_page_ranges` (pdf_ops.py:1103-1120): either a
`start-end` range (split at the first dash) or a single page number. -/
def parseRangePart (pageCount : Nat) (part : String) (acc : Finset ℕ) :
    Except String (Finset ℕ) :=
  if strContains part "-" then
    let startS : String := ⟨pyStripL (beforeFirstChar '-' part.data)⟩
    let endS : String := ⟨pyStripL (afterFirstChar '-' part.data)⟩
    match parsePositiveInt startS "range start" with
    | .error e => .error e
    | .ok start =>
      match parsePositiveInt endS "range end" with
      | .error e => .error e
      | .ok endV =>
        if endV < start then .error "range end must be >= range start"
        else addRangeLoop pageCount endV.toNat start.toNat acc
  else
    match parsePositiveInt part "page" with
    | .error e => .error e
    | .ok oneBased =>
      let idx := oneBased.toNat - 1
      if pageCount ≤ idx then .error s!"page {oneBased} is out of bounds (1..{pageCount})"
      else .ok (insert idx acc)

/-- The loop over comma-parts of `parse_page_ranges`. -/
def parseRangesLoop (pageCount : Nat) : List String → Finset ℕ → Except String (Finset ℕ)
  | [], acc => .ok acc
  | part :: rest, acc =>
    match parseRangePart pageCount part acc with
    | .error e => .error e
    | .ok acc2 => parseRangesLoop pageCount rest acc2

/-- Model of `parse_page_ranges` (pdf_ops.py:1091-1122): parse `"1,3,5-7"` into the
set of excluded 0-based page indices. -/
def parsePageRanges (pages : String) (pageCount : Nat) : Except String (Finset ℕ) :=
  if pageCount = 0 then .error "PDF has no pages"
  else if (pyStrip pages).data.isEmpty then .error "pages is required"
  else parseRangesLoop pageCount (commaTokens pages) ∅

/-- Model of `remove_pages` (pdf_ops.py:1184-1198): copy every page whose index is
not excluded, in index order. -/
def removePages (pages : List α) (ps : String) : Except String (List α) :=
  match parsePageRanges ps pages.length with
  | .error e => .error e
  | .ok s =>
    .ok (((List.range pages.length).filter fun i => decide (i ∉ s)).filterMap
      fun i => pages[i]?)

/-! ## `_font_supports_text` (claims C6, C10) -/

/-- The glyph interface of a loaded `fitz.Font`: `hasGlyph cp` is the
truthiness of `Font.has_glyph(cp)`, with `none` modelling an exception. -/
structure FontOracle where
  hasGlyph : Nat → Option Bool

/-- The per-character loop of `_font_supports_text` (pdf_ops.py:1396-1413);
`load` is the (deterministic, cached) result of `fitz.Font(fontfile=...)`,
with `none` modelling an exception while loading. -/
def fontSupportsTextLoop (load : Option FontOracle) : List Char → Bool
  | [] => true
  | ch :: rest =>
    if ch.isWhitespace then fontSupportsTextLoop load rest
    else
      match load with
      | none => false
      | some f =>
        match f.hasGlyph ch.toNat with
        | none => false
        | some has => if has then fontSupportsTextLoop load rest else false

/-- Model of `_font_supports_text` (pdf_ops.py:1373-1414).  Here `fontfile = none` models
Python `None`; the empty string is likewise falsy for `if not fontfile`. -/
def fontSupportsText (text : String) (fontfile : Option String)
    (load : String → Option FontOracle) : Bool :=
  if text.data.isEmpty then true
  else
    match fontfile with
    | none => true
    | some ff =>
      if ff.data.isEmpty then true
      else fontSupportsTextLoop (load ff) text.data

/-! ## Font path resolution (`_try_system_fontfile_native` and the builtin
fallback loop of `_find_replace_core`: claim C1) -/

/-- The ambient platform state read by the resolution chain: `os.name`,
the `WINDIR` and `PDF_EDITOR_FONTS_DIR` environment variables (`""` when
unset), the request-scoped uploaded font directories, the bundled fonts
directory when it exists, and `os.path.isfile`. -/
structure SysEnv where
  isWindows : Bool
  windir : String
  extraFontDirs : List String
  envFontsDir : String
  bundledDir : Option String
  fileExists : String → Bool

/-- Model of `os.path.join` for two components (modelled as concatenation with the
platform separator; no theorem depends on the join syntax). -/
def pathJoin (env : SysEnv) (d f : String) : String :=
  d ++ (if env.isWindows then "\\" else "/") ++ f

/-- Model of `_first_existing` (pdf_ops.py:582-586). -/
def firstExisting (env : SysEnv) (paths : List String) : Option String :=
  paths.find? fun p => !p.data.isEmpty && env.fileExists p

/-- Model of `_windows_font_path` (pdf_ops.py:576-579). -/
def windowsFontPath (env : SysEnv) (filename : String) : Option String :=
  let winDir := if env.windir.data.isEmpty then "C:\\Windows" else env.windir
  let path := pathJoin env (pathJoin env winDir "Fonts") filename
  if env.fileExists path then some path else none

/-- Order-preserving deduplication of font directories
(pdf_ops.py:623-630). -/
def dedupDirs : List (String × String) → List String → List (String × String)
  | [], _ => []
  | (d, src) :: rest, seen =>
    if !d.data.isEmpty && !seen.contains d then (d, src) :: dedupDirs rest (d :: seen)
    else dedupDirs rest seen

/-- Model of `_custom_fonts_dirs_with_source` (pdf_ops.py:607-630): uploaded,
operator-configured, then bundled directories, deduplicated. -/
def customFontsDirsWithSource (env : SysEnv) : List (String × String) :=
  let pairs :=
    ((env.extraFontDirs.filter fun d => !d.data.isEmpty).map fun d => (d, "uploaded"))
    ++ (let e := pyStrip env.envFontsDir
        if e.data.isEmpty then [] else [(e, "custom")])
    ++ (match env.bundledDir with | some b => [(b, "bundled")] | none => [])
  dedupDirs pairs []

/-- The Computer Modern / Latin Modern candidate file table
(pdf_ops.py:768-793), keyed by `(bold, italic)`. -/
def cmCandidates : Bool → Bool → List String
  | false, false => ["cmunrm.ttf", "cmunr.ttf", "lmroman10-regular.otf", "lmroman10-regular.ttf"]
  | true, false => ["cmunbx.ttf", "cmunb.ttf", "lmroman10-bold.otf", "lmroman10-bold.ttf"]
  | false, true => ["cmunit.ttf", "cmunri.ttf", "lmroman10-italic.otf", "lmroman10-italic.ttf"]
  | true, true => ["cmunbi.ttf", "cmunbxo.ttf", "lmroman10-bolditalic.otf", "lmroman10-bolditalic.ttf"]

/-- Model of `os.path.isabs` (for POSIX paths; every candidate above is a
bare filename, so this is always false on them). -/
def pyIsAbs (p : String) : Bool := isPrefixB ['/'] p.data

/-- Model of `_try_computer_modern_fontfile` (pdf_ops.py:760-822). -/
def tryComputerModernFontfile (env : SysEnv) (bold italic : Bool) : Option String :=
  let candidates := cmCandidates bold italic
  let searchDirs :=
    (customFontsDirsWithSource env).map Prod.fst
    ++ ["/usr/share/texmf/fonts/opentype/public/lm",
        "/usr/share/texmf/fonts/truetype/public/cm-unicode",
        "/usr/share/fonts/opentype/latin-modern",
        "/usr/share/fonts/truetype/cmu"]
    ++ (if env.windir.data.isEmpty then [] else [pathJoin env env.windir "Fonts"])
  let paths := (searchDirs.map fun d => candidates.map fun f => pathJoin env d f).flatten
    ++ candidates.filter pyIsAbs
  firstExisting env paths

/-- Model of `_normalize_fontname` (pdf_ops.py:121-128): strip, drop a leading `/`,
keep everything after the first `+` (subset prefix), strip, lowercase. -/
def normalizeFontname (fontname : String) : String :=
  let name := pyStripL fontname.data
  let name := match name with
    | '/' :: rest => rest
    | other => other
  let name := if name.elem '+' then afterFirstChar '+' name else name
  ⟨(pyStripL name).map Char.toLower⟩

/-- Model of `_infer_bold_italic` (pdf_ops.py:26-38). -/
def inferBoldItalic (fontname : String) : Bool × Bool :=
  let name := pyLower fontname
  let isBold := ["bold", "black", "heavy", "semibold", "demibold"].any fun k => strContains name k
  let isItalic := ["italic", "oblique", "slanted"].any fun k => strContains name k
  let isBold := isBold || ["cmbx", "cmssbx", "cmssb", "cmb"].any fun k => strContains name k
  let isItalic := isItalic || ["cmti", "cmsl"].any fun k => strContains name k
  (isBold, isItalic)

/-- The `pick` closure of `_map_font_to_base14` (pdf_ops.py:63-88). -/
def base14Pick (family : String) (isBold isItalic : Bool) : String :=
  if family = "times" then
    if isBold && isItalic then "Times-BoldItalic"
    else if isBold then "Times-Bold"
    else if isItalic then "Times-Italic"
    else "Times-Roman"
  else if family = "helv" then
    if isBold && isItalic then "Helvetica-BoldOblique"
    else if isBold then "Helvetica-Bold"
    else if isItalic then "Helvetica-Oblique"
    else "Helvetica"
  else if family = "cour" then
    if isBold && isItalic then "Courier-BoldOblique"
    else if isBold then "Courier-Bold"
    else if isItalic then "Courier-Oblique"
    else "Courier"
  else "Helvetica"

/-- Model of `_map_font_to_base14` (pdf_ops.py:50-118). -/
def mapFontToBase14 (fontname : String) : Option String :=
  if fontname.data.isEmpty then none
  else
    let name := pyLower fontname
    let ib := (inferBoldItalic name).1
    let ii := (inferBoldItalic name).2
    if ["cmr", "cmbx", "cmti", "cmsl", "cmu"].any (fun k => strContains name k) then
      some (base14Pick "times" (ib || strContains name "cmbx")
        (ii || strContains name "cmti" || strContains name "cmsl"))
    else if strContains name "cmss" then
      some (base14Pick "helv" (ib || strContains name "cmssbx" || strContains name "cmssb") ii)
    else if strContains name "cmtt" then some (base14Pick "cour" ib ii)
    else if strContains name "times" || strContains name "timenewroman"
        || strContains name "timesnewroman" then
      some (base14Pick "times" ib ii)
    else if strContains name "courier" || strContains name "consolas"
        || strContains name "monospace" then
      some (base14Pick "cour" ib ii)
    else if ["helvetica", "arial", "calibri", "verdana", "tahoma", "sans"].any
        (fun k => strContains name k) then
      some (base14Pick "helv" ib ii)
    else none

/-- Style-variant selection used in the Windows tables of
`_try_system_fontfile_native` (bold-italic, bold, italic, regular). -/
def winStyleFile (reg bd it bi : String) (isBold isItalic : Bool) : String :=
  if isBold && isItalic then bi
  else if isBold then bd
  else if isItalic then it
  else reg

/-- Linux serif candidates (pdf_ops.py:882-903). -/
def linuxSerifTable : Bool → Bool → List String
  | false, false => ["/usr/share/fonts/truetype/dejavu/DejaVuSerif.ttf",
      "/usr/share/fonts/truetype/liberation2/LiberationSerif-Regular.ttf",
      "/usr/share/fonts/truetype/liberation/LiberationSerif-Regular.ttf"]
  | true, false => ["/usr/share/fonts/truetype/dejavu/DejaVuSerif-Bold.ttf",
      "/usr/share/fonts/truetype/liberation2/LiberationSerif-Bold.ttf",
      "/usr/share/fonts/truetype/liberation/LiberationSerif-Bold.ttf"]
  | false, true => ["/usr/share/fonts/truetype/dejavu/DejaVuSerif-Italic.ttf",
      "/usr/share/fonts/truetype/liberation2/LiberationSerif-Italic.ttf",
      "/usr/share/fonts/truetype/liberation/LiberationSerif-Italic.ttf"]
  | true, true => ["/usr/share/fonts/truetype/dejavu/DejaVuSerif-BoldItalic.ttf",
      "/usr/share/fonts/truetype/liberation2/LiberationSerif-BoldItalic.ttf",
      "/usr/share/fonts/truetype/liberation/LiberationSerif-BoldItalic.ttf"]

/-- Linux sans candidates (pdf_ops.py:904-925). -/
def linuxSansTable : Bool → Bool → List String
  | false, false => ["/usr/share/fonts/truetype/dejavu/DejaVuSans.ttf",
      "/usr/share/fonts/truetype/liberation2/LiberationSans-Regular.ttf",
      "/usr/share/fonts/truetype/liberation/LiberationSans-Regular.ttf"]
  | true, false => ["/usr/share/fonts/truetype/dejavu/DejaVuSans-Bold.ttf",
      "/usr/share/fonts/truetype/liberation2/LiberationSans-Bold.ttf",
      "/usr/share/fonts/truetype/liberation/LiberationSans-Bold.ttf"]
  | false, true => ["/usr/share/fonts/truetype/dejavu/DejaVuSans-Oblique.ttf",
      "/usr/share/fonts/truetype/liberation2/LiberationSans-Italic.ttf",
      "/usr/share/fonts/truetype/liberation/LiberationSans-Italic.ttf"]
  | true, true => ["/usr/share/fonts/truetype/dejavu/DejaVuSans-BoldOblique.ttf",
      "/usr/share/fonts/truetype/liberation2/LiberationSans-BoldItalic.ttf",
      "/usr/share/fonts/truetype/liberation/LiberationSans-BoldItalic.ttf"]

/-- Linux monospace candidates (pdf_ops.py:926-947). -/
def linuxMonoTable : Bool → Bool → List String
  | false, false => ["/usr/share/fonts/truetype/dejavu/DejaVuSansMono.ttf",
      "/usr/share/fonts/truetype/liberation2/LiberationMono-Regular.ttf",
      "/usr/share/fonts/truetype/liberation/LiberationMono-Regular.ttf"]
  | true, false => ["/usr/share/fonts/truetype/dejavu/DejaVuSansMono-Bold.ttf",
      "/usr/share/fonts/truetype/liberation2/LiberationMono-Bold.ttf",
      "/usr/share/fonts/truetype/liberation/LiberationMono-Bold.ttf"]
  | false, true => ["/usr/share/fonts/truetype/dejavu/DejaVuSansMono-Oblique.ttf",
      "/usr/share/fonts/truetype/liberation2/LiberationMono-Italic.ttf",
      "/usr/share/fonts/truetype/liberation/LiberationMono-Italic.ttf"]
  | true, true => ["/usr/share/fonts/truetype/dejavu/DejaVuSansMono-BoldOblique.ttf",
      "/usr/share/fonts/truetype/liberation2/LiberationMono-BoldItalic.ttf",
      "/usr/share/fonts/truetype/liberation/LiberationMono-BoldItalic.ttf"]

/-- Model of `_try_system_fontfile_native` after the Computer Modern attempt
(pdf_ops.py:848-974): the Windows name tables, or the Linux family
classification plus the DejaVu / Liberation tables. -/
def sysFontRest (env : SysEnv) (norm : String) (isBold isItalic : Bool) : Option String :=
  if env.isWindows then
    if ["times", "newroman", "timesnewroman"].any (fun k => strContains norm k) then
      windowsFontPath env (winStyleFile "times.ttf" "timesbd.ttf" "timesi.ttf" "timesbi.ttf" isBold isItalic)
    else if ["arial", "helvetica"].any (fun k => strContains norm k) then
      windowsFontPath env (winStyleFile "arial.ttf" "arialbd.ttf" "ariali.ttf" "arialbi.ttf" isBold isItalic)
    else if strContains norm "calibri" then
      windowsFontPath env (winStyleFile "calibri.ttf" "calibrib.ttf" "calibrii.ttf" "calibriz.ttf" isBold isItalic)
    else none
  else
    let fam : Nat :=
      if ["courier", "mono", "monospace", "cmtt"].any (fun k => strContains norm k) then 2
      else if ["times", "serif", "roman", "georgia", "garamond", "cambria", "palatino",
          "constantia", "cmr", "cmbx", "cmti", "cmsl", "cmu"].any
          (fun k => strContains norm k) then 1
      else 0
    let table := if fam = 1 then linuxSerifTable isBold isItalic
      else if fam = 2 then linuxMonoTable isBold isItalic
      else linuxSansTable isBold isItalic
    firstExisting env table

/-- Model of `_try_system_fontfile_native` (pdf_ops.py:825-974). -/
def trySystemFontfileNative (env : SysEnv) (fontname : String) (bold italic : Option Bool) :
    Option String :=
  let raw := pyLower fontname
  let norm := normalizeFontname fontname
  if norm.data.isEmpty then none
  else
    let isBold := bold.getD (inferBoldItalic raw).1
    let isItalic := italic.getD (inferBoldItalic raw).2
    let cm := if ["cmr", "cmbx", "cmti", "cmsl", "cmu"].any (fun k => strContains norm k) then
        tryComputerModernFontfile env isBold isItalic
      else none
    match cm with
    | some c => if c.data.isEmpty then sysFontRest env norm isBold isItalic else some c
    | none => sysFontRest env norm isBold isItalic

/-- The candidate names of the final builtin fallback loop of
`_find_replace_core` (pdf_ops.py:2072): `(style.fontname, mapped_font,
"helv")`, with `None` rendered as `""` (both are skipped by
`if not candidate`). -/
def builtinCandidates (styleFontname : Option String) : List String :=
  [styleFontname.getD "",
   (mapFontToBase14 (styleFontname.getD "")).getD "",
   "helv"]

/-- The `for candidate in ...: if not candidate: continue; try: insert;
break; except: continue` loop (pdf_ops.py:2072-2097): the first nonempty
candidate on which insertion succeeds. -/
def firstInsertSuccess (ok : String → Bool) (cands : List String) : Option String :=
  (cands.filter fun c => !c.data.isEmpty).find? ok

/-- A platform with no font files anywhere (used to witness that resolution
can return `None`). -/
def emptyEnv : SysEnv :=
  { isWindows := false, windir := "", extraFontDirs := [], envFontsDir := "",
    bundledDir := none, fileExists := fun _ => false }

/-- A glyph oracle covering exactly `a` and `b` (for witnesses). -/
def demoOracle : FontOracle := ⟨fun cp => some (decide (cp = 97 ∨ cp = 98))⟩

/-- A loader that always yields `demoOracle` (for witnesses). -/
def demoLoad : String → Option FontOracle := fun _ => some demoOracle

/-! # Theorems -/

/-! ## Helper lemmas about words and whitespace -/

theorem splitWs_ne_nil (cs : List Char) : splitWs cs ≠ [] := by
  induction cs with
  | nil => simp [splitWs]
  | cons c rest ih =>
    show (if c.isWhitespace then [] :: splitWs rest
      else match splitWs rest with
        | [] => [[c]]
        | w :: ws => (c :: w) :: ws) ≠ []
    split
    · simp
    · cases h : splitWs rest <;> simp

theorem splitWs_cons (c : Char) (cs : List Char) :
    splitWs (c :: cs) =
      if c.isWhitespace then [] :: splitWs cs
      else match splitWs cs with
        | [] => [[c]]
        | w :: ws => (c :: w) :: ws := rfl

theorem mem_splitWs_of_mem {c : Char} :
    ∀ {cs : List Char}, c ∈ cs → c.isWhitespace = false → ∃ w ∈ splitWs cs, c ∈ w := by
  intro cs
  induction cs with
  | nil => intro h; cases h
  | cons d rest ih =>
    intro hmem hw
    rw [splitWs_cons]
    rcases List.mem_cons.mp hmem with rfl | hrest
    · rw [hw]
      cases h : splitWs rest with
      | nil => exact ⟨[c], by simp⟩
      | cons w ws => exact ⟨c :: w, by simp⟩
    · rcases ih hrest hw with ⟨w, hwmem, hcw⟩
      by_cases hd : d.isWhitespace
      · exact ⟨w, by simp [hd, hwmem], hcw⟩
      · simp only [hd, if_neg Bool.false_ne_true, Bool.false_eq_true, if_false]
        cases h : splitWs rest with
        | nil => rw [h] at hwmem; cases hwmem
        | cons w0 ws =>
          rw [h] at hwmem
          rcases List.mem_cons.mp hwmem with rfl | hws
          · exact ⟨d :: w, by simp, List.mem_cons_of_mem _ hcw⟩
          · exact ⟨w, by simp [hws], hcw⟩

theorem upper_not_lower (c : Char) (h : c.isUpper = true) : c.isLower = false := by
  have h' : (65 : UInt32) ≤ c.val ∧ c.val ≤ 90 := by
    simpa [Char.isUpper, Bool.and_eq_true, decide_eq_true_eq] using h
  by_cases hl : c.isLower = true
  · exfalso
    have h2 : (97 : UInt32) ≤ c.val ∧ c.val ≤ 122 := by
      simpa [Char.isLower, Bool.and_eq_true, decide_eq_true_eq] using hl
    have hn1 : (97 : UInt32).toBitVec.toNat ≤ c.val.toBitVec.toNat := by
      simpa [UInt32.le_def, BitVec.le_def] using h2.1
    have hn2 : c.val.toBitVec.toNat ≤ (90 : UInt32).toBitVec.toNat := by
      simpa [UInt32.le_def, BitVec.le_def] using h'.2
    exact absurd (le_trans hn1 hn2) (by decide)
  · exact Bool.eq_false_iff.mpr hl

theorem alpha_not_ws (c : Char) (h : c.isAlpha = true) : c.isWhitespace = false := by
  by_contra hw
  rw [Bool.not_eq_false] at hw
  have : ((c = ' ' ∨ c = '\t') ∨ c = '\r') ∨ c = '\n' := by
    simpa [Char.isWhitespace, Bool.or_eq_true, decide_eq_true_eq] using hw
  rcases this with ((rfl | rfl) | rfl) | rfl <;> exact absurd h (by decide)

theorem wsWords_ne_nil_of_alpha {s : String} (h : ∃ c ∈ s.data, c.isAlpha = true) :
    wsWords s ≠ [] := by
  rcases h with ⟨c, hc, hca⟩
  rcases mem_splitWs_of_mem hc (alpha_not_ws c hca) with ⟨w, hw, hcw⟩
  have hne : w ≠ [] := List.ne_nil_of_mem hcw
  unfold wsWords
  intro hcontra
  have : (⟨w⟩ : String) ∈
      (((splitWs s.data).map fun cs => (⟨cs⟩ : String)).filter fun w => !w.data.isEmpty) := by
    refine List.mem_filter.mpr ⟨List.mem_map.mpr ⟨w, hw, rfl⟩, ?_⟩
    simpa [List.isEmpty_iff] using hne
  rw [hcontra] at this
  cases this

/-- C3 (confirmed): `_match_replacement_case` returns the replacement
uppercased when the stripped original has letters and they are all
uppercase; lowercased when they are all lowercase; Python-title-cased when
neither holds but every whitespace-separated word is title-shaped (first
letter uppercase, every character after it non-alphabetic or lowercase,
matching the spec's "first letter upper, remainder lower"); and unchanged
otherwise — and the spec's three examples hold. -/
theorem match_replacement_case_claim (o r : String) :
    (((pyStrip o).data.filter Char.isAlpha ≠ []) →
      ((((pyStrip o).data.filter Char.isAlpha).all Char.isUpper = true →
        matchReplacementCase o r = pyUpper r)
      ∧ (((pyStrip o).data.filter Char.isAlpha).all Char.isLower = true →
        matchReplacementCase o r = pyLower r)
      ∧ (((pyStrip o).data.filter Char.isAlpha).all Char.isUpper = false →
         ((pyStrip o).data.filter Char.isAlpha).all Char.isLower = false →
         (wsWords (pyStrip o)).all isTitleWord = true →
        matchReplacementCase o r = pyTitle r)))
    ∧ ((((pyStrip o).data.filter Char.isAlpha = []) ∨
        (((pyStrip o).data.filter Char.isAlpha).all Char.isUpper = false ∧
         ((pyStrip o).data.filter Char.isAlpha).all Char.isLower = false ∧
         (wsWords (pyStrip o)).all isTitleWord = false)) →
      matchReplacementCase o r = r)
    ∧ matchReplacementCase "RESUME" "summary" = "SUMMARY"
    ∧ matchReplacementCase "Jane Doe" "john smith" = "John Smith"
    ∧ matchReplacementCase "hello" "WORLD" = "world" := by
  refine ⟨?_, ?_, by decide, by decide, by decide⟩
  · intro hletters
    have hstrip : ¬ (pyStrip o).data.isEmpty = true := by
      intro h
      rw [List.isEmpty_iff] at h
      simp [h] at hletters
    have hLne : ¬ ((pyStrip o).data.filter Char.isAlpha).isEmpty = true := by
      simpa [List.isEmpty_iff] using hletters
    refine ⟨?_, ?_, ?_⟩
    · intro hU
      by_cases hr : r.data.isEmpty
      · obtain ⟨rl⟩ := r
        simp only [String.data] at hr
        rw [List.isEmpty_iff] at hr
        subst hr
        simp [matchReplacementCase, pyUpper]
      · simp [matchReplacementCase, hr, hstrip, hLne, hU]
    · intro hLo
      have hU : ¬ ((pyStrip o).data.filter Char.isAlpha).all Char.isUpper = true := by
        intro hU
        rcases List.exists_cons_of_ne_nil hletters with ⟨c, cs, hc⟩
        have hcmem : c ∈ (pyStrip o).data.filter Char.isAlpha := by rw [hc]; simp
        have h1 := List.all_eq_true.mp hU c hcmem
        have h2 := List.all_eq_true.mp hLo c hcmem
        have halpha : c.isAlpha = true := (List.mem_filter.mp hcmem).2
        rw [upper_not_lower c h1] at h2
        cases h2
      by_cases hr : r.data.isEmpty
      · obtain ⟨rl⟩ := r
        simp only [String.data] at hr
        rw [List.isEmpty_iff] at hr
        subst hr
        simp [matchReplacementCase, pyLower]
      · simp [matchReplacementCase, hr, hstrip, hLne, hU, hLo]
    · intro hU hLo hT
      have hwords : ¬ (wsWords (pyStrip o)).isEmpty = true := by
        rw [List.isEmpty_iff]
        refine wsWords_ne_nil_of_alpha ?_
        rcases List.exists_cons_of_ne_nil hletters with ⟨c, cs, hc⟩
        have hcmem : c ∈ (pyStrip o).data.filter Char.isAlpha := by rw [hc]; simp
        exact ⟨c, (List.mem_filter.mp hcmem).1, (List.mem_filter.mp hcmem).2⟩
      by_cases hr : r.data.isEmpty
      · obtain ⟨rl⟩ := r
        simp only [String.data] at hr
        rw [List.isEmpty_iff] at hr
        subst hr
        simp [matchReplacementCase, pyTitle, pyTitleAux]
      · simp [matchReplacementCase, hr, hstrip, hLne, hU, hLo, hT, hwords]
  · intro hcase
    by_cases hr : r.data.isEmpty
    · simp [matchReplacementCase, hr]
    · by_cases hstrip : (pyStrip o).data.isEmpty
      · simp [matchReplacementCase, hr, hstrip]
      · rcases hcase with hL | ⟨hU, hLo, hT⟩
        · have hLe : ((pyStrip o).data.filter Char.isAlpha).isEmpty = true := by
            simp [List.isEmpty_iff, hL]
          simp [matchReplacementCase, hr, hstrip, hLe]
        · have hLne : ¬ ((pyStrip o).data.filter Char.isAlpha).isEmpty = true := by
            rw [List.isEmpty_iff]
            intro hnil
            rw [hnil] at hU
            simp at hU
          simp [matchReplacementCase, hr, hstrip, hLne, hU, hLo, hT]

/-- Witness for C3 at concrete inputs (the all-uppercase branch). -/
theorem match_replacement_case_claim_witness :
    matchReplacementCase "AB1" "xy" = pyUpper "xy" :=
  ((match_replacement_case_claim "AB1" "xy").1 (by decide)).1 (by decide)

/-! ## C5: `_should_use_distributed_insertion` -/

/-- C5 (corrected): the tracking-emulation decision returns `true` exactly
when fontsize ≥ 12, replacement length > 2, the fill ratios against
`max 1 (rect.width − 1)` (the claim omits the clamp at 1) reach 1.20 / 1.10,
the *trimmed* original is nonempty, the trimmed original and trimmed
replacement agree on containing whitespace, and the trimmed-length ratio
(with the original's length clamped at 1) lies in `[0.65, 1.35]`. -/
theorem distributed_insertion_claim (rect : Rect) (ot rt : String) (mr mo fs : ℚ) :
    shouldUseDistributedInsertion rect ot rt mr mo fs = true ↔
      trackingCond rect ot rt mr mo fs := by
  have hrw : (0 : ℚ) < max 1 (rectWidth rect - 1) :=
    lt_of_lt_of_le one_pos (le_max_left _ _)
  constructor
  · intro h
    unfold shouldUseDistributedInsertion at h
    dsimp only at h
    split_ifs at h with h1 h2 h3 h4 h5 h6 h7 h8 h9
    unfold trackingCond
    refine ⟨not_lt.mp h1, ?_, not_lt.mp h4, not_lt.mp h8, ?_, ?_, ?_, ?_⟩
    · simp only [Bool.or_eq_true, List.isEmpty_iff, decide_eq_true_eq, not_or] at h2
      omega
    · simpa [List.isEmpty_iff] using h5
    · have := h6
      simp only [bne_iff_ne, ne_eq, Decidable.not_not] at this
      exact this
    · have h9' := h9
      simp only [Bool.or_eq_true, decide_eq_true_eq, not_or, not_lt] at h9'
      exact h9'.1
    · have h9' := h9
      simp only [Bool.or_eq_true, decide_eq_true_eq, not_or, not_lt] at h9'
      exact h9'.2
  · intro hc
    unfold trackingCond at hc
    obtain ⟨c1, c2, c3, c4, c5, c6, c7, c8⟩ := hc
    have hmr : ¬ mr ≤ 0 := by
      intro hmr
      have : max 1 (rectWidth rect - 1) / mr ≤ 0 :=
        div_nonpos_iff.mpr (Or.inl ⟨hrw.le, hmr⟩)
      linarith
    have hmo : ¬ mo ≤ 0 := by
      intro hmo
      have : max 1 (rectWidth rect - 1) / mo ≤ 0 :=
        div_nonpos_iff.mpr (Or.inl ⟨hrw.le, hmo⟩)
      linarith
    unfold shouldUseDistributedInsertion
    dsimp only
    rw [if_neg (not_lt.mpr c1)]
    rw [if_neg (by
      simp only [Bool.or_eq_true, List.isEmpty_iff, decide_eq_true_eq, not_or]
      constructor
      · intro hn; rw [hn] at c2; simp at c2
      · omega)]
    rw [if_neg hmr]
    rw [if_neg (not_lt.mpr c3)]
    rw [if_neg (by simpa [List.isEmpty_iff] using c5)]
    rw [if_neg (by simp [c6])]
    rw [if_neg hmo]
    rw [if_neg (not_lt.mpr c4)]
    rw [if_neg (by
      simp only [Bool.or_eq_true, decide_eq_true_eq, not_or, not_lt]
      exact ⟨c7, c8⟩)]

/-- Counterexample to C5 as stated: (i) at rect width `3/2` the code clamps
`rect.width − 1` up to `1` and fires, while the claim's unclamped ratio
`(1/2)/(1/2) = 1 < 1.20` says it must not; (ii) for a whitespace-only
original the code declines, while the claim's conditions on the raw strings
are all satisfied. -/
theorem distributed_insertion_counterexample :
    (shouldUseDistributedInsertion ⟨0, 0, 3/2, 10⟩ "xyz" "abc" (1/2) (1/2) 12 = true ∧
      ¬ claimTrackingCond ⟨0, 0, 3/2, 10⟩ "xyz" "abc" (1/2) (1/2) 12) ∧
    (shouldUseDistributedInsertion ⟨0, 0, 20, 10⟩ "    " " abc " 10 10 12 = false ∧
      claimTrackingCond ⟨0, 0, 20, 10⟩ "    " " abc " 10 10 12) := by
  refine ⟨⟨?_, ?_⟩, ⟨?_, ?_⟩⟩
  · unfold shouldUseDistributedInsertion
    dsimp only
    rw [show (pyStrip "abc").data.length = 3 from rfl,
        show (pyStrip "xyz").data.length = 3 from rfl]
    rw [if_neg (by norm_num)]
    rw [if_neg (by decide)]
    rw [if_neg (by norm_num)]
    rw [if_neg (by norm_num [rectWidth, max_def])]
    rw [if_neg (by decide)]
    rw [if_neg (by decide)]
    rw [if_neg (by norm_num)]
    rw [if_neg (by norm_num [rectWidth, max_def])]
    rw [if_neg (by norm_num [max_def])]
  · rintro ⟨-, -, h3, -⟩
    norm_num [rectWidth] at h3
  · unfold shouldUseDistributedInsertion
    dsimp only
    rw [if_neg (by norm_num)]
    rw [if_neg (by decide)]
    rw [if_neg (by norm_num)]
    rw [if_neg (by norm_num [rectWidth, max_def])]
    rw [if_pos (by decide)]
  · refine ⟨by norm_num, by decide, ?_, ?_, by decide, ?_, ?_⟩
    · norm_num [rectWidth]
    · norm_num [rectWidth]
    · rw [show (" abc " : String).data.length = 5 from rfl,
        show ("    " : String).data.length = 4 from rfl]
      norm_num
    · rw [show (" abc " : String).data.length = 5 from rfl,
        show ("    " : String).data.length = 4 from rfl]
      norm_num


/-! ## C7: `_baseline_point` -/

/-- C7 (corrected): when the descender metric is available the baseline y
starts at `rect.y1 + descender·size` and is then adjusted — if it is below
`rect.y0` it becomes `rect.y0 + size`, and if the value then exceeds
`rect.y1` it becomes `rect.y1 − 1`; the result is guaranteed inside the rect
only when the rect is at least 1 unit tall and the size is nonnegative (the
claim's unconditional "clamped inside the rect" fails for shorter rects).
When the metric is unavailable, `y = rect.y1 − max(1, 0.18·size)`; the x
coordinate is always `rect.x0`. -/
theorem baseline_point_claim (rect : Rect) (fontsize desc : ℚ) :
    (baselinePoint rect fontsize none).x = rect.x0 ∧
    (baselinePoint rect fontsize none).y = rect.y1 - max 1 (fontsize * 0.18) ∧
    (baselinePoint rect fontsize (some desc)).x = rect.x0 ∧
    (baselinePoint rect fontsize (some desc)).y =
      (if rect.y1 + desc * fontsize < rect.y0 then
        (if rect.y1 < rect.y0 + fontsize then rect.y1 - 1 else rect.y0 + fontsize)
       else if rect.y1 < rect.y1 + desc * fontsize then rect.y1 - 1
       else rect.y1 + desc * fontsize) ∧
    (1 ≤ rectHeight rect → 0 ≤ fontsize →
      rect.y0 ≤ (baselinePoint rect fontsize (some desc)).y ∧
      (baselinePoint rect fontsize (some desc)).y ≤ rect.y1) := by
  refine ⟨rfl, rfl, rfl, ?_, ?_⟩
  · unfold baselinePoint
    dsimp only
    split_ifs <;> rfl
  · intro hh hs
    unfold rectHeight at hh
    unfold baselinePoint
    dsimp only
    split_ifs with h1 h2 h3 <;> constructor <;> linarith

/-- Counterexample to C7 as stated: for the rect `(0, 0, 10, 1/2)` with
size 10 and descender `−1/2`, the adjusted baseline y is `−1/2`, which lies
outside the rect (`y0 = 0`), contradicting "clamped so that the point lies
inside the rect". -/
theorem baseline_point_counterexample :
    (baselinePoint ⟨0, 0, 10, 1/2⟩ 10 (some (-(1/2)))).y = -(1/2) ∧
    ¬ ((⟨0, 0, 10, 1/2⟩ : Rect).y0 ≤ (baselinePoint ⟨0, 0, 10, 1/2⟩ 10 (some (-(1/2)))).y) := by
  have h : (baselinePoint ⟨0, 0, 10, 1/2⟩ 10 (some (-(1/2)))).y = -(1/2) := by
    unfold baselinePoint
    dsimp only
    rw [if_pos (by norm_num)]
    norm_num
  exact ⟨h, by rw [h]; norm_num⟩

/-- Witness for C7: a 10-unit-tall rect with size 12 keeps the adjusted
baseline inside the rect. -/
theorem baseline_point_claim_witness :
    (⟨0, 0, 10, 10⟩ : Rect).y0 ≤ (baselinePoint ⟨0, 0, 10, 10⟩ 12 (some (-(1/5)))).y ∧
    (baselinePoint ⟨0, 0, 10, 10⟩ 12 (some (-(1/5)))).y ≤ (⟨0, 0, 10, 10⟩ : Rect).y1 :=
  (baseline_point_claim ⟨0, 0, 10, 10⟩ 12 (-(1/5))).2.2.2.2
    (by norm_num [rectHeight]) (by norm_num)

/-! ## C4 and C9: `_merge_close_rects` -/

theorem rectContains_rfl (r : Rect) : rectContains r r :=
  ⟨le_refl _, le_refl _, le_refl _, le_refl _⟩

theorem rectContains_trans {a b c : Rect} (h1 : rectContains a b) (h2 : rectContains b c) :
    rectContains a c :=
  ⟨le_trans h1.1 h2.1, le_trans h1.2.1 h2.2.1, le_trans h2.2.2.1 h1.2.2.1,
    le_trans h2.2.2.2 h1.2.2.2⟩

theorem unionRect_contains_left (a b : Rect) : rectContains (unionRect a b) a :=
  ⟨min_le_left _ _, min_le_left _ _, le_max_left _ _, le_max_left _ _⟩

theorem unionRect_contains_right (a b : Rect) : rectContains (unionRect a b) b :=
  ⟨min_le_right _ _, min_le_right _ _, le_max_right _ _, le_max_right _ _⟩

theorem padRect_contains (r : Rect) : rectContains (padRect r) r := by
  unfold padRect rectContains
  dsimp only
  have h2 : (2 : ℚ) ≤ max 2 (rectHeight r * 0.15) := le_max_left _ _
  have h1 : (1 : ℚ) ≤ max 1 (rectHeight r * 0.08) := le_max_left _ _
  refine ⟨by linarith, by linarith, by linarith, by linarith⟩

theorem mergeLoop_length : ∀ (rest acc : List Rect),
    (mergeLoop acc rest).length ≤ acc.length + rest.length := by
  intro rest
  induction rest with
  | nil => intro acc; simp [mergeLoop]
  | cons r rs ih =>
    intro acc
    cases acc with
    | nil =>
      simp only [mergeLoop]
      exact le_trans (ih [r]) (by simp only [List.length_cons, List.length_nil]; omega)
    | cons last tail =>
      simp only [mergeLoop]
      split
      · exact le_trans (ih _) (by simp only [List.length_cons]; omega)
      · exact le_trans (ih _) (by simp only [List.length_cons]; omega)

theorem mergeLoop_ne_nil : ∀ (rest acc : List Rect), acc ≠ [] → mergeLoop acc rest ≠ [] := by
  intro rest
  induction rest with
  | nil =>
    intro acc h
    simpa [mergeLoop] using h
  | cons r rs ih =>
    intro acc h
    cases acc with
    | nil => exact absurd rfl h
    | cons last tail =>
      simp only [mergeLoop]
      split
      · exact ih _ (by simp)
      · exact ih _ (by simp)

theorem mergeLoop_covers : ∀ (rest acc : List Rect) (x : Rect), (x ∈ acc ∨ x ∈ rest) →
    ∃ s ∈ mergeLoop acc rest, rectContains s x := by
  intro rest
  induction rest with
  | nil =>
    intro acc x hx
    rcases hx with hx | hx
    · exact ⟨x, by simpa [mergeLoop] using hx, rectContains_rfl x⟩
    · cases hx
  | cons r rs ih =>
    intro acc x hx
    cases acc with
    | nil =>
      rcases hx with hx | hx
      · cases hx
      · rcases List.mem_cons.mp hx with rfl | hxs
        · simp only [mergeLoop]
          exact ih [x] x (Or.inl (by simp))
        · simp only [mergeLoop]
          exact ih [r] x (Or.inr hxs)
    | cons last tail =>
      simp only [mergeLoop]
      split
      · rcases hx with hx | hx
        · rcases List.mem_cons.mp hx with rfl | hxt
          · rcases ih (unionRect x r :: tail) (unionRect x r) (Or.inl (by simp)) with
              ⟨s, hs, hcont⟩
            exact ⟨s, hs, rectContains_trans hcont (unionRect_contains_left _ _)⟩
          · exact ih _ x (Or.inl (List.mem_cons_of_mem _ hxt))
        · rcases List.mem_cons.mp hx with rfl | hxs
          · rcases ih (unionRect last x :: tail) (unionRect last x) (Or.inl (by simp)) with
              ⟨s, hs, hcont⟩
            exact ⟨s, hs, rectContains_trans hcont (unionRect_contains_right _ _)⟩
          · exact ih _ x (Or.inr hxs)
      · rcases hx with hx | hx
        · exact ih _ x (Or.inl (List.mem_cons_of_mem _ hx))
        · rcases List.mem_cons.mp hx with rfl | hxs
          · exact ih _ x (Or.inl (by simp))
          · exact ih _ x (Or.inr hxs)

theorem shouldMerge_comm (p q : Rect) : shouldMerge p q = shouldMerge q p := by
  unfold shouldMerge rectIntersects
  dsimp only
  rw [min_comm p.y1 q.y1, max_comm p.y0 q.y0, min_comm (rectHeight p) (rectHeight q),
    abs_sub_comm, min_comm p.x1 q.x1, max_comm p.x0 q.x0]

theorem shouldMerge_iff_sameLine (a b : Rect) :
    shouldMerge a b = true ↔ sameLineCond a b := by
  unfold shouldMerge sameLineCond rectIntersects
  dsimp only
  rw [mul_comm (max 1 (min (rectHeight a) (rectHeight b))) (0.8 : ℚ)]
  simp only [Bool.or_eq_true, decide_eq_true_eq, Bool.and_eq_true, ge_iff_le]

theorem sep_not_merge (a b : Rect) (h : separateCond a b) : shouldMerge a b = false := by
  obtain ⟨h1, h2⟩ := h
  unfold shouldMerge rectIntersects
  dsimp only
  have hv : max 0 (min a.y1 b.y1 - max a.y0 b.y0) = 0 := max_eq_left h1
  rw [hv]
  simp only [Bool.or_eq_false_iff, Bool.and_eq_false_iff, decide_eq_false_iff_not,
    not_lt, not_le, zero_div]
  refine ⟨Or.inr (by linarith), by norm_num, by linarith⟩

theorem mergeCloseRects_pair_eq (a b : Rect) (ha : rectIsZero a = false)
    (hb : rectIsZero b = false) :
    mergeCloseRects [a, b] =
      if rectLE a b then
        (if shouldMerge a b then [padRect (unionRect a b)] else [padRect a, padRect b])
      else
        (if shouldMerge b a then [padRect (unionRect b a)] else [padRect b, padRect a]) := by
  unfold mergeCloseRects
  rw [if_neg (by simp)]
  simp only [List.filter, ha, hb, Bool.not_false]
  simp only [List.insertionSort, List.orderedInsert]
  by_cases hle : rectLE a b
  · simp only [if_pos hle]
    by_cases hm : shouldMerge a b = true
    · simp [mergeLoop, hm]
    · simp [mergeLoop, hm]
  · simp only [if_neg hle]
    by_cases hm : shouldMerge b a = true
    · simp [mergeLoop, hm]
    · simp [mergeLoop, hm]


/-- C4 (corrected): for two nonzero raw rectangles, if they are on the same
visual line — they intersect, or vertical overlap divided by
`max 1 (smaller height)` is at least 0.3, or the centers differ by less than
`0.8 × max 1 (smaller height)` (the claim omits the clamp at 1 on the
smaller height) — the merger returns one region; if they have no vertical
overlap and centers more than `0.8 × max 1 (smaller height)` apart, it
returns the two inputs in `(y0, x0)`-sorted order, each padded (the padded
outputs themselves need not be `(y0, x0)`-ordered). -/
theorem merge_pair_claim (a b : Rect) (ha : rectIsZero a = false) (hb : rectIsZero b = false) :
    (sameLineCond a b → (mergeCloseRects [a, b]).length = 1)
    ∧ (separateCond a b →
        mergeCloseRects [a, b] =
          if rectLE a b then [padRect a, padRect b] else [padRect b, padRect a]) := by
  rw [mergeCloseRects_pair_eq a b ha hb]
  constructor
  · intro hsl
    have hm : shouldMerge a b = true := (shouldMerge_iff_sameLine a b).mpr hsl
    have hm2 : shouldMerge b a = true := by rw [shouldMerge_comm]; exact hm
    by_cases hle : rectLE a b
    · simp [hle, hm]
    · simp [hle, hm2]
  · intro hsep
    have hm : shouldMerge a b = false := sep_not_merge a b hsep
    have hm2 : shouldMerge b a = false := by rw [shouldMerge_comm]; exact hm
    by_cases hle : rectLE a b
    · simp [hle, hm]
    · simp [hle, hm2]

/-- Witness for C4: an intersecting same-line pair merges to one region. -/
theorem merge_pair_claim_witness :
    (mergeCloseRects [⟨0, 0, 10, 1⟩, ⟨5, 0, 20, 1⟩]).length = 1 :=
  (merge_pair_claim ⟨0, 0, 10, 1⟩ ⟨5, 0, 20, 1⟩ (by decide) (by decide)).1
    (Or.inl (by decide))

/-- Counterexample to C4 as stated, in three parts.  (i) For heights `1/2`
the code clamps the smaller height up to 1: the pair below has no vertical
overlap and centers `7/10 > 0.8 × (1/2)` apart, so the claim says two
regions, but the code merges them into one.  (ii) The padded outputs are
not `(y0, x0)`-ordered: a separate pair whose second rect is much taller
gets a padded `y0` below the first output's.  (iii) An all-zero rectangle
is dropped by the truthiness filter, so a claim-separate pair containing it
yields one region, not two. -/
theorem merge_pair_counterexample :
    ((mergeCloseRects [⟨0, 0, 10, 1/2⟩, ⟨0, 7/10, 10, 6/5⟩]).length = 1 ∧
      min ((1:ℚ)/2) (6/5) - max 0 (7/10) ≤ 0 ∧
      |((0:ℚ) + 1/2) / 2 - (7/10 + 6/5) / 2| >
        0.8 * min (rectHeight ⟨0, 0, 10, 1/2⟩) (rectHeight ⟨0, 7/10, 10, 6/5⟩)) ∧
    (mergeCloseRects [⟨0, 0, 10, 1⟩, ⟨20, 4/5, 30, 504/5⟩] =
        [⟨-2, -1, 12, 2⟩, ⟨5, -(36/5), 45, 544/5⟩] ∧
      ((⟨5, -(36/5), 45, 544/5⟩ : Rect).y0 < (⟨-2, -1, 12, 2⟩ : Rect).y0)) ∧
    ((mergeCloseRects [⟨0, 0, 0, 0⟩, ⟨0, 5, 10, 6⟩]).length = 1 ∧
      min ((0:ℚ)) 6 - max 0 5 ≤ 0 ∧
      |((0:ℚ) + 0) / 2 - (5 + 6) / 2| >
        0.8 * min (rectHeight ⟨0, 0, 0, 0⟩) (rectHeight ⟨0, 5, 10, 6⟩)) := by
  refine ⟨⟨?_, by norm_num, ?_⟩, ⟨?_, by norm_num⟩, ⟨?_, by norm_num, ?_⟩⟩
  · norm_num [mergeCloseRects, mergeLoop, shouldMerge, rectIntersects, rectHeight, rectIsZero,
      List.insertionSort, List.orderedInsert, rectLE, unionRect, padRect, max_def, min_def]
    rw [abs_of_nonneg (by norm_num : (0:ℚ) ≤ 7/10)]
    norm_num
  · rw [abs_of_nonpos (by norm_num : ((0:ℚ) + 1/2) / 2 - (7/10 + 6/5) / 2 ≤ 0)]
    norm_num [rectHeight, min_def]
  · norm_num [mergeCloseRects, mergeLoop, shouldMerge, rectIntersects, rectHeight, rectIsZero,
      List.insertionSort, List.orderedInsert, rectLE, unionRect, max_def, min_def]
    rw [abs_of_nonneg (by norm_num : (0:ℚ) ≤ 503/10)]
    norm_num [padRect, rectHeight, max_def, min_def]
  · norm_num [mergeCloseRects, mergeLoop, shouldMerge, rectIntersects, rectHeight, rectIsZero,
      List.insertionSort, List.orderedInsert, rectLE, unionRect, padRect, max_def, min_def]
  · rw [abs_of_nonpos (by norm_num : ((0:ℚ) + 0) / 2 - (5 + 6) / 2 ≤ 0)]
    norm_num [rectHeight, min_def]

/-- C9 (corrected): the merger never returns more regions than it was given;
every input rectangle that is not the all-zero rectangle is contained in
some output rectangle; and the output is non-empty whenever some input
rectangle is not all-zero (an all-zero input is dropped by the truthiness
filter, so the claim's unconditional non-emptiness fails). -/
theorem merge_props_claim (rects : List Rect) :
    (mergeCloseRects rects).length ≤ rects.length
    ∧ (∀ r ∈ rects, rectIsZero r = false → ∃ s ∈ mergeCloseRects rects, rectContains s r)
    ∧ ((∃ r ∈ rects, rectIsZero r = false) → mergeCloseRects rects ≠ []) := by
  by_cases hempty : rects.isEmpty
  · rw [List.isEmpty_iff] at hempty
    subst hempty
    exact ⟨by simp [mergeCloseRects], by simp, by simp⟩
  · have hperm : List.Perm (List.insertionSort rectLE (rects.filter fun r => !rectIsZero r))
        (rects.filter fun r => !rectIsZero r) := List.perm_insertionSort _ _
    unfold mergeCloseRects
    rw [if_neg hempty]
    dsimp only
    refine ⟨?_, ?_, ?_⟩
    · rw [List.length_map]
      calc (mergeLoop [] (List.insertionSort rectLE (rects.filter fun r => !rectIsZero r))).length
          ≤ 0 + (List.insertionSort rectLE (rects.filter fun r => !rectIsZero r)).length :=
            mergeLoop_length _ _
        _ = (rects.filter fun r => !rectIsZero r).length := by
            rw [hperm.length_eq]; omega
        _ ≤ rects.length := List.length_filter_le _ _
    · intro r hr hz
      have hrc : r ∈ rects.filter (fun r => !rectIsZero r) :=
        List.mem_filter.mpr ⟨hr, by simp [hz]⟩
      have hrs : r ∈ List.insertionSort rectLE (rects.filter fun r => !rectIsZero r) :=
        hperm.mem_iff.mpr hrc
      rcases mergeLoop_covers _ [] r (Or.inr hrs) with ⟨s, hs, hcont⟩
      exact ⟨padRect s, List.mem_map_of_mem _ hs,
        rectContains_trans (padRect_contains s) hcont⟩
    · rintro ⟨r, hr, hz⟩
      have hrc : r ∈ rects.filter (fun r => !rectIsZero r) :=
        List.mem_filter.mpr ⟨hr, by simp [hz]⟩
      have hrs : r ∈ List.insertionSort rectLE (rects.filter fun r => !rectIsZero r) :=
        hperm.mem_iff.mpr hrc
      cases hs : List.insertionSort rectLE (rects.filter fun r => !rectIsZero r) with
      | nil => rw [hs] at hrs; cases hrs
      | cons q qs =>
        have hne : mergeLoop [] (q :: qs) ≠ [] := by
          simp only [mergeLoop]
          exact mergeLoop_ne_nil qs [q] (by simp)
        intro hmap
        exact hne (List.map_eq_nil_iff.mp hmap)

/-- Witness for C9: a single nonzero rectangle yields a non-empty output. -/
theorem merge_props_claim_witness :
    mergeCloseRects [⟨0, 0, 10, 1⟩] ≠ [] :=
  (merge_props_claim [⟨0, 0, 10, 1⟩]).2.2 ⟨⟨0, 0, 10, 1⟩, by simp, by decide⟩

/-- Counterexample to C9 as stated: the non-empty input list consisting of
the all-zero rectangle produces an empty output (the rect is falsy and is
filtered out), so "returns a non-empty list in which every input rectangle
is contained in some output rectangle" fails. -/
theorem merge_props_counterexample :
    mergeCloseRects [⟨0, 0, 0, 0⟩] = [] ∧ ([⟨0, 0, 0, 0⟩] : List Rect) ≠ [] := by
  exact ⟨by decide, by simp⟩


/-! ## C2: `parse_reorder` / `reorder_pages` -/

theorem filterMap_length_of_all_isSome {α β : Type} (f : α → Option β) :
    ∀ (l : List α), (∀ x ∈ l, (f x).isSome = true) → (l.filterMap f).length = l.length := by
  intro l
  induction l with
  | nil => intro _; simp
  | cons x xs ih =>
    intro h
    obtain ⟨b, hb⟩ := Option.isSome_iff_exists.mp (h x (List.mem_cons_self x xs))
    rw [List.filterMap_cons, hb]
    simp only [List.length_cons]
    rw [ih fun y hy => h y (List.mem_cons_of_mem _ hy)]

theorem filterMap_getElem?_of_all_isSome {α β : Type} (f : α → Option β) :
    ∀ (l : List α) (j : ℕ), (∀ x ∈ l, (f x).isSome = true) →
      (l.filterMap f)[j]? = (l[j]?).bind f := by
  intro l
  induction l with
  | nil => intro j _; simp
  | cons x xs ih =>
    intro j h
    obtain ⟨b, hb⟩ := Option.isSome_iff_exists.mp (h x (List.mem_cons_self x xs))
    rw [List.filterMap_cons, hb]
    cases j with
    | zero => simp [hb]
    | succ j =>
      simp only [List.getElem?_cons_succ]
      exact ih j fun y hy => h y (List.mem_cons_of_mem _ hy)

theorem parseReorderLoop_ok {pageCount : Nat} :
    ∀ (parts : List String) (acc l : List Nat),
      parseReorderLoop pageCount parts acc = .ok l →
      (∀ x ∈ acc, x < pageCount) → acc.Nodup →
      l.Nodup ∧ (∀ x ∈ l, x < pageCount) ∧ l.length = acc.length + parts.length := by
  intro parts
  induction parts with
  | nil =>
    intro acc l h hbound hnodup
    simp only [parseReorderLoop, Except.ok.injEq] at h
    subst h
    refine ⟨List.nodup_reverse.mpr hnodup, ?_, by simp⟩
    intro x hx
    exact hbound x (List.mem_reverse.mp hx)
  | cons part rest ih =>
    intro acc l h hbound hnodup
    simp only [parseReorderLoop] at h
    cases hp : parsePositiveInt part "order item" with
    | error e => rw [hp] at h; cases h
    | ok oneBased =>
      rw [hp] at h
      dsimp only at h
      split_ifs at h with h1 h2
      have hlt : (oneBased - 1).toNat < pageCount := by
        push_neg at h1
        omega
      have hres := ih ((oneBased - 1).toNat :: acc) l h
        (by
          intro x hx
          rcases List.mem_cons.mp hx with rfl | hxa
          · exact hlt
          · exact hbound x hxa)
        (List.nodup_cons.mpr ⟨h2, hnodup⟩)
      refine ⟨hres.1, hres.2.1, ?_⟩
      rw [hres.2.2]
      simp only [List.length_cons]
      omega

/-- C2 (confirmed): whenever `parse_reorder` accepts an order string for a
document, the parsed order is a valid permutation (length equals the page
count, entries in range, no duplicates — so any order with a duplicate,
out-of-range entry or wrong length is rejected with the Invalid Input
error, before any output exists), and `reorder_pages` then succeeds with
output page `j` equal to input page `order[j]` for every index; whenever
parsing fails, `reorder_pages` propagates the error and produces no
output. -/
theorem reorder_pages_permutation {α : Type} (pages : List α) (order : String) :
    (∀ po, parseReorder order pages.length = .ok po →
      po.length = pages.length ∧ po.Nodup ∧ (∀ i ∈ po, i < pages.length) ∧
      ∃ out, reorderPages pages order = .ok out ∧ out.length = pages.length ∧
        ∀ j, j < pages.length → out[j]? = pages[po.getD j 0]?)
    ∧ (∀ e, parseReorder order pages.length = .error e →
        reorderPages pages order = .error e) := by
  constructor
  · intro po hpo
    have hprops : po.Nodup ∧ (∀ x ∈ po, x < pages.length) ∧ po.length = pages.length := by
      unfold parseReorder at hpo
      dsimp only at hpo
      split_ifs at hpo with h1 h2 h3
      have hloop := parseReorderLoop_ok (commaTokens order) [] po hpo (by simp)
        List.nodup_nil
      refine ⟨hloop.1, hloop.2.1, ?_⟩
      rw [hloop.2.2, List.length_nil, Nat.zero_add]
      exact not_not.mp h3
    have hsome : ∀ i ∈ po, (pages[i]?).isSome = true := by
      intro i hi
      have hlt := hprops.2.1 i hi
      rw [Option.isSome_iff_exists]
      exact ⟨pages[i], List.getElem?_eq_getElem hlt⟩
    refine ⟨hprops.2.2, hprops.1, hprops.2.1, po.filterMap fun i => pages[i]?, ?_, ?_, ?_⟩
    · unfold reorderPages
      rw [hpo]
    · rw [filterMap_length_of_all_isSome _ po hsome]
      exact hprops.2.2
    · intro j hj
      have hjpo : j < po.length := by rw [hprops.2.2]; exact hj
      rw [filterMap_getElem?_of_all_isSome _ po j hsome]
      rw [List.getElem?_eq_getElem hjpo]
      rw [Option.some_bind]
      congr 1
      exact (List.getD_eq_getElem po 0 hjpo).symm
  · intro e he
    unfold reorderPages
    rw [he]

/-- Witness for C2: reordering three pages by `"3,1,2"`. -/
theorem reorder_pages_permutation_witness :
    ([2, 0, 1] : List Nat).length = ([10, 20, 30] : List Nat).length :=
  ((reorder_pages_permutation [10, 20, 30] "3,1,2").1 [2, 0, 1] rfl).1

/-! ## C8: `parse_page_ranges` / `remove_pages` -/

theorem addRangeAux_ok {pc : Nat} :
    ∀ (fuel oneBased : Nat) (acc s : Finset ℕ),
      addRangeAux pc fuel oneBased acc = .ok s →
      (∀ x ∈ acc, x < pc) → ∀ x ∈ s, x < pc := by
  intro fuel
  induction fuel with
  | zero =>
    intro oneBased acc s h hacc
    simp only [addRangeAux, Except.ok.injEq] at h
    subst h
    exact hacc
  | succ fuel ih =>
    intro oneBased acc s h hacc
    simp only [addRangeAux] at h
    split_ifs at h with h1
    refine ih _ _ _ h ?_
    intro x hx
    rcases Finset.mem_insert.mp hx with rfl | hxa
    · omega
    · exact hacc x hxa

theorem parseRangePart_ok {pc : Nat} (part : String) (acc s : Finset ℕ)
    (h : parseRangePart pc part acc = .ok s) (hacc : ∀ x ∈ acc, x < pc) :
    ∀ x ∈ s, x < pc := by
  unfold parseRangePart at h
  split_ifs at h with hdash
  all_goals dsimp only at h
  · cases h1 : parsePositiveInt ⟨pyStripL (beforeFirstChar '-' part.data)⟩ "range start" with
    | error e => rw [h1] at h; cases h
    | ok start =>
      rw [h1] at h
      dsimp only at h
      cases h2 : parsePositiveInt ⟨pyStripL (afterFirstChar '-' part.data)⟩ "range end" with
      | error e => rw [h2] at h; cases h
      | ok endV =>
        rw [h2] at h
        dsimp only at h
        split_ifs at h with h3
        unfold addRangeLoop at h
        exact addRangeAux_ok _ _ _ _ h hacc
  · cases hp : parsePositiveInt part "page" with
    | error e => rw [hp] at h; cases h
    | ok oneBased =>
      rw [hp] at h
      dsimp only at h
      split_ifs at h with h1
      simp only [Except.ok.injEq] at h
      subst h
      intro x hx
      rcases Finset.mem_insert.mp hx with rfl | hxa
      · omega
      · exact hacc x hxa

theorem parseRangesLoop_ok {pc : Nat} :
    ∀ (parts : List String) (acc s : Finset ℕ),
      parseRangesLoop pc parts acc = .ok s →
      (∀ x ∈ acc, x < pc) → ∀ x ∈ s, x < pc := by
  intro parts
  induction parts with
  | nil =>
    intro acc s h hacc
    simp only [parseRangesLoop, Except.ok.injEq] at h
    subst h
    exact hacc
  | cons part rest ih =>
    intro acc s h hacc
    simp only [parseRangesLoop] at h
    cases hp : parseRangePart pc part acc with
    | error e => rw [hp] at h; cases h
    | ok acc2 =>
      rw [hp] at h
      exact ih acc2 s h (parseRangePart_ok part acc acc2 hp hacc)

theorem parsePageRanges_ok {pc : Nat} (ps : String) (s : Finset ℕ)
    (h : parsePageRanges ps pc = .ok s) : ∀ x ∈ s, x < pc := by
  unfold parsePageRanges at h
  split_ifs at h with h1 h2
  exact parseRangesLoop_ok _ _ _ h (by simp)

theorem length_filter_range_not_mem :
    ∀ (n : ℕ) (s : Finset ℕ), (∀ x ∈ s, x < n) →
      ((List.range n).filter fun i => decide (i ∉ s)).length = n - s.card := by
  intro n
  induction n with
  | zero =>
    intro s hs
    have : s = ∅ := Finset.eq_empty_of_forall_not_mem fun x hx => absurd (hs x hx) (by omega)
    simp [this]
  | succ n ih =>
    intro s hs
    rw [List.range_succ, List.filter_append, List.length_append]
    have hcongr : ∀ i ∈ List.range n,
        (decide (i ∉ s)) = (decide (i ∉ s.erase n)) := by
      intro i hi
      have hne : i ≠ n := by have := List.mem_range.mp hi; omega
      simp [Finset.mem_erase, hne]
    rw [List.filter_congr hcongr]
    rw [ih (s.erase n) (by
      intro x hx
      have h1 := Finset.mem_of_mem_erase hx
      have h2 := Finset.ne_of_mem_erase hx
      have := hs x h1
      omega)]
    by_cases hn : n ∈ s
    · have hc : (s.erase n).card = s.card - 1 := Finset.card_erase_of_mem hn
      have hcpos : 1 ≤ s.card := Finset.card_pos.mpr ⟨n, hn⟩
      have hcard : s.card ≤ n + 1 := by
        have hsub : s ⊆ Finset.range (n + 1) := fun x hx => Finset.mem_range.mpr (hs x hx)
        calc s.card ≤ (Finset.range (n + 1)).card := Finset.card_le_card hsub
          _ = n + 1 := Finset.card_range _
      simp only [List.filter_cons, List.filter_nil]
      rw [if_neg (by simp [hn])]
      simp only [List.length_nil, hc]
      omega
    · have hc : s.erase n = s := Finset.erase_eq_of_not_mem hn
      have hcard : s.card ≤ n := by
        have hsub : s ⊆ Finset.range n := by
          intro x hx
          refine Finset.mem_range.mpr ?_
          have := hs x hx
          rcases Nat.lt_succ_iff_lt_or_eq.mp this with hlt | rfl
          · exact hlt
          · exact absurd hx hn
        calc s.card ≤ (Finset.range n).card := Finset.card_le_card hsub
          _ = n := Finset.card_range _
      simp only [List.filter_cons, List.filter_nil]
      rw [if_pos (by simp [hn])]
      simp only [List.length_cons, List.length_nil, hc]
      omega

theorem filterMap_filter_range_eq_enum {α : Type} :
    ∀ (l : List α) (p : ℕ → Bool),
      ((List.range l.length).filter p).filterMap (fun i => l[i]?) =
        (l.enum.filter fun q => p q.1).map Prod.snd := by
  intro l
  induction l with
  | nil => intro p; simp
  | cons x xs ih =>
    intro p
    have hL : (List.range (x :: xs).length).filter p =
        (if p 0 then [0] else []) ++
          List.map Nat.succ ((List.range xs.length).filter fun i => p (i + 1)) := by
      rw [List.length_cons, List.range_succ_eq_map, List.filter_cons, List.filter_map]
      by_cases hp : p 0 = true
      · simp [hp, Function.comp_def]
      · simp [hp, Function.comp_def]
    have hR : (x :: xs).enum.filter (fun q => p q.1) =
        (if p 0 then [(0, x)] else []) ++
          List.map (Prod.map (· + 1) id) (xs.enum.filter fun q => p (q.1 + 1)) := by
      rw [List.enum_cons', List.filter_cons, List.filter_map]
      by_cases hp : p 0 = true
      · simp [hp, Function.comp_def, Prod.map]
      · simp [hp, Function.comp_def, Prod.map]
    rw [hL, hR, List.filterMap_append, List.filterMap_map, List.map_append, List.map_map]
    have hf : ((fun i => (x :: xs)[i]?) ∘ Nat.succ) = fun i => xs[i]? := by
      funext i
      simp [Function.comp_def]
    have hg : (Prod.snd ∘ Prod.map (· + 1) (id : α → α)) = (Prod.snd : ℕ × α → α) := by
      funext q
      cases q
      rfl
    rw [hf, hg]
    congr 1
    · by_cases hp : p 0 = true
      · rw [if_pos hp, if_pos hp]
        simp
      · rw [if_neg hp, if_neg hp]
        simp
    · exact ih fun i => p (i + 1)

/-- C8 (confirmed): whenever `parse_page_ranges` accepts a page-range string
for a document, `remove_pages` succeeds, its output page count is the input
count minus the size of the excluded index set, and the output is exactly
the input pages with the excluded indices skipped, in original relative
order (it is the subsequence of pages whose index is not excluded). -/
theorem remove_pages_claim {α : Type} (pages : List α) (ps : String) (s : Finset ℕ)
    (h : parsePageRanges ps pages.length = .ok s) :
    ∃ out, removePages pages ps = .ok out ∧
      out.length = pages.length - s.card ∧
      List.Sublist out pages ∧
      out = (pages.enum.filter fun q => decide (q.1 ∉ s)).map Prod.snd := by
  have hbound : ∀ x ∈ s, x < pages.length := parsePageRanges_ok ps s h
  have heq := filterMap_filter_range_eq_enum pages (fun i => decide (i ∉ s))
  refine ⟨((List.range pages.length).filter fun i => decide (i ∉ s)).filterMap
      (fun i => pages[i]?), ?_, ?_, ?_, heq⟩
  · unfold removePages
    rw [h]
  · rw [filterMap_length_of_all_isSome]
    · exact length_filter_range_not_mem pages.length s hbound
    · intro i hi
      have hlt := List.mem_range.mp (List.mem_of_mem_filter hi)
      rw [Option.isSome_iff_exists]
      exact ⟨pages[i], List.getElem?_eq_getElem hlt⟩
  · rw [heq]
    have hsub : List.Sublist (pages.enum.filter fun q => decide (q.1 ∉ s)) pages.enum :=
      List.filter_sublist _
    have := hsub.map Prod.snd
    rwa [List.enum_map_snd] at this

/-- Witness for C8: removing pages "2-3" from a four-page document. -/
theorem remove_pages_claim_witness :
    ∃ out, removePages [10, 20, 30, 40] "2-3" = .ok out ∧
      out.length = ([10, 20, 30, 40] : List ℕ).length -
        (insert 2 (insert 1 (∅ : Finset ℕ))).card ∧
      List.Sublist out [10, 20, 30, 40] ∧
      out = (([10, 20, 30, 40] : List ℕ).enum.filter
          fun q => decide (q.1 ∉ insert 2 (insert 1 (∅ : Finset ℕ)))).map Prod.snd :=
  remove_pages_claim [10, 20, 30, 40] "2-3" _ rfl

/-! ## C6 and C10: `_font_supports_text` -/

theorem fontSupportsTextLoop_iff (ld : Option FontOracle) :
    ∀ (cs : List Char),
      fontSupportsTextLoop ld cs = true ↔
        ∀ ch ∈ cs, ch.isWhitespace = false →
          (ld.bind fun f => f.hasGlyph ch.toNat) = some true := by
  intro cs
  induction cs with
  | nil => simp [fontSupportsTextLoop]
  | cons ch rest ih =>
    simp only [fontSupportsTextLoop]
    by_cases hws : ch.isWhitespace = true
    · rw [if_pos hws, ih]
      constructor
      · intro h c hc hcws
        rcases List.mem_cons.mp hc with rfl | hcr
        · rw [hws] at hcws; cases hcws
        · exact h c hcr hcws
      · intro h c hc hcws
        exact h c (List.mem_cons_of_mem _ hc) hcws
    · rw [if_neg hws]
      have hws' : ch.isWhitespace = false := Bool.eq_false_iff.mpr hws
      cases ld with
      | none =>
        simp only [Option.none_bind]
        constructor
        · intro h; cases h
        · intro h
          have := h ch (List.mem_cons_self ch rest) hws'
          cases this
      | some f =>
        simp only [Option.some_bind]
        cases hg : f.hasGlyph ch.toNat with
        | none =>
          dsimp only
          constructor
          · intro h; cases h
          · intro h
            have := h ch (List.mem_cons_self ch rest) hws'
            rw [hg] at this
            cases this
        | some has =>
          cases has with
          | false =>
            dsimp only
            rw [if_neg (by simp)]
            constructor
            · intro h; cases h
            · intro h
              have := h ch (List.mem_cons_self ch rest) hws'
              rw [hg] at this
              cases this
          | true =>
            dsimp only
            rw [if_pos rfl, ih]
            constructor
            · intro h c hc hcws
              rcases List.mem_cons.mp hc with rfl | hcr
              · rw [hg]
              · exact h c hcr hcws
            · intro h c hc hcws
              exact h c (List.mem_cons_of_mem _ hc) hcws

/-- C6 (confirmed): for a nonempty font-file path, the glyph-coverage check
returns `true` exactly when, for every non-whitespace character of the text,
loading the font program succeeds and its `has_glyph` query returns a truthy
value; any load or query failure (modelled as `none`) makes it return
`false` rather than raising — the embedding is a total function, mirroring
that every fitz call is wrapped in `try/except`. -/
theorem font_supports_text_claim (text : String) (ff : String)
    (load : String → Option FontOracle) (hff : ff.data ≠ []) :
    fontSupportsText text (some ff) load = true ↔
      ∀ ch ∈ text.data, ch.isWhitespace = false →
        ((load ff).bind fun f => f.hasGlyph ch.toNat) = some true := by
  unfold fontSupportsText
  by_cases ht : text.data.isEmpty = true
  · rw [if_pos ht]
    rw [List.isEmpty_iff] at ht
    rw [ht]
    simp
  · rw [if_neg ht]
    dsimp only
    rw [if_neg (by simpa [List.isEmpty_iff] using hff)]
    exact fontSupportsTextLoop_iff (load ff) text.data

/-- Witness for C6: a two-character text against an oracle covering exactly
`a` and `b`. -/
theorem font_supports_text_claim_witness :
    fontSupportsText "ab" (some "f.ttf") demoLoad = true :=
  (font_supports_text_claim "ab" "f.ttf" demoLoad (by decide)).mpr (by decide)

/-- C10 (confirmed): the glyph-coverage check returns `true` unconditionally
when no font file is supplied (`None` or the falsy empty string), and when
the text is empty or all-whitespace — regardless of the loader, so a
builtin font identified by name alone is never rejected. -/
theorem font_supports_text_trivial (text : String)
    (load : String → Option FontOracle) (ff : String) :
    fontSupportsText text none load = true
    ∧ fontSupportsText text (some "") load = true
    ∧ ((∀ c ∈ text.data, c.isWhitespace = true) →
        fontSupportsText text (some ff) load = true) := by
  refine ⟨?_, ?_, ?_⟩
  · unfold fontSupportsText
    split_ifs <;> rfl
  · unfold fontSupportsText
    by_cases h1 : text.data.isEmpty = true
    · rw [if_pos h1]
    · rw [if_neg h1]
      dsimp only
      simp
  · intro hws
    unfold fontSupportsText
    by_cases h1 : text.data.isEmpty = true
    · rw [if_pos h1]
    · rw [if_neg h1]
      dsimp only
      by_cases h2 : ff.data.isEmpty = true
      · rw [if_pos h2]
      · rw [if_neg h2]
        rw [fontSupportsTextLoop_iff]
        intro ch hch hcws
        rw [hws ch hch] at hcws
        cases hcws

/-- Witness for C10: whitespace-only text passes even when every font load
fails. -/
theorem font_supports_text_trivial_witness :
    fontSupportsText " " (some "f.ttf") (fun _ => none) = true :=
  (font_supports_text_trivial " " (fun _ => none) "f.ttf").2.2 (by decide)

/-! ## C1: font resolution fallback -/

theorem firstExisting_isfile {env : SysEnv} {paths : List String} {p : String}
    (h : firstExisting env paths = some p) : env.fileExists p = true := by
  unfold firstExisting at h
  have := List.find?_some h
  simp only [Bool.and_eq_true] at this
  exact this.2

theorem windowsFontPath_isfile {env : SysEnv} {filename p : String}
    (h : windowsFontPath env filename = some p) : env.fileExists p = true := by
  unfold windowsFontPath at h
  dsimp only at h
  split_ifs at h with h1 h2 h3 <;>
    (simp only [Option.some.injEq] at h; subst h; assumption)

theorem tryComputerModernFontfile_isfile {env : SysEnv} {bold italic : Bool} {p : String}
    (h : tryComputerModernFontfile env bold italic = some p) : env.fileExists p = true := by
  unfold tryComputerModernFontfile at h
  exact firstExisting_isfile h

theorem sysFontRest_isfile {env : SysEnv} {norm : String} {isBold isItalic : Bool} {p : String}
    (h : sysFontRest env norm isBold isItalic = some p) : env.fileExists p = true := by
  unfold sysFontRest at h
  by_cases hwin : env.isWindows = true
  · rw [if_pos hwin] at h
    split_ifs at h with h1 h2 h3
    · exact windowsFontPath_isfile h
    · exact windowsFontPath_isfile h
    · exact windowsFontPath_isfile h
  · rw [if_neg hwin] at h
    dsimp only at h
    split_ifs at h <;> exact firstExisting_isfile h

/-- C1 (corrected): `_try_system_fontfile_native` only ever returns the path
of a font file that exists on disk — so when no uploaded, bundled, locale or
system font file exists it returns `None`, not a builtin font path; the
replacement pass nonetheless still succeeds for the match, because the final
fallback loop of `_find_replace_core` inserts by builtin font *name* and its
candidate list always ends with the nonempty builtin name `"helv"`, so
whenever insertion with `"helv"` succeeds the loop finds a candidate. -/
theorem sysfont_builtin_fallback (env : SysEnv) (fontname : String) (bold italic : Option Bool)
    (sf : Option String) (ok : String → Bool) (hok : ok "helv" = true) :
    (∀ p, trySystemFontfileNative env fontname bold italic = some p →
      env.fileExists p = true)
    ∧ (firstInsertSuccess ok (builtinCandidates sf)).isSome = true := by
  constructor
  · intro p h
    unfold trySystemFontfileNative at h
    dsimp only at h
    split_ifs at h with h1 h2
    · cases hcm : tryComputerModernFontfile env
          (bold.getD (inferBoldItalic (pyLower fontname)).1)
          (italic.getD (inferBoldItalic (pyLower fontname)).2) with
      | none =>
        rw [hcm] at h
        dsimp only at h
        exact sysFontRest_isfile h
      | some c =>
        rw [hcm] at h
        dsimp only at h
        split_ifs at h with hc
        · exact sysFontRest_isfile h
        · simp only [Option.some.injEq] at h
          subst h
          exact tryComputerModernFontfile_isfile hcm
    · exact sysFontRest_isfile h
  · unfold firstInsertSuccess builtinCandidates
    rw [List.find?_isSome]
    refine ⟨"helv", ?_, hok⟩
    refine List.mem_filter.mpr ⟨?_, by decide⟩
    simp

/-- Witness for C1: on a platform with no font files, with an insertion
function that succeeds on builtin names, the fallback loop still finds a
candidate. -/
theorem sysfont_builtin_fallback_witness :
    (firstInsertSuccess (fun _ => true) (builtinCandidates (some "Calibri"))).isSome = true :=
  (sysfont_builtin_fallback emptyEnv "arial" none none (some "Calibri")
    (fun _ => true) rfl).2

/-- Counterexample to C1 as stated: on a platform with no font files at all
(so no uploaded, bundled, locale or system font matches), resolution for
`"arial"` returns `None`, not a valid builtin font path. -/
theorem sysfont_none_counterexample :
    trySystemFontfileNative emptyEnv "arial" none none = none := by decide

end PdfOps
